import Mathlib

/-!
Shallow embedding of the agent loop of
`src/3-ai-agents-in-langgraph/Lesson_4_Student.ipynb` (the `Agent` class
built on a two-node LangGraph state graph with a per-thread checkpointer)
and of the `flatten` utility of
`src/4-langchain-functions-tools-agents/L4-tagging-and-extraction-student.ipynb`.

The graph has nodes `llm` (`Agent.call_openai`) and `action`
(`Agent.take_action`), a conditional edge `llm -> {action | END}` decided by
`Agent.exists_action`, an unconditional edge `action -> llm`, entry point
`llm`, and a checkpointer that persists the accumulated message list
(`AgentState.messages`, merged with `operator.add`, i.e. list append) after
every node, keyed by `thread_id`.
-/

namespace LlmNotes

/-- Message roles, as in the langchain message classes used by the notebook:
`SystemMessage`, `HumanMessage`, `AIMessage`, `ToolMessage`. -/
inductive Role where
  | system
  | user
  | assistant
  | tool
deriving DecidableEq, Repr

/-- One entry of an `AIMessage.tool_calls` list:
`{'name': ..., 'args': ..., 'id': ...}`.  Arguments are kept as an opaque
string since the notebook passes them through unchanged to `tool.invoke`. -/
structure ToolCall where
  id : String
  name : String
  args : String
deriving DecidableEq, Repr

/-- A unit of conversation history.  `tool_calls` is meaningful on assistant
messages (empty elsewhere); `tool_call_id` and `name` are set on tool
messages only. -/
structure Message where
  role : Role
  content : String
  tool_calls : List ToolCall
  tool_call_id : Option String
  name : Option String
deriving DecidableEq, Repr

def SystemMessage (content : String) : Message :=
  ⟨Role.system, content, [], none, none⟩

def HumanMessage (content : String) : Message :=
  ⟨Role.user, content, [], none, none⟩

def AIMessage (content : String) (tool_calls : List ToolCall) : Message :=
  ⟨Role.assistant, content, tool_calls, none, none⟩

def ToolMessage (tool_call_id : String) (name : String) (content : String) : Message :=
  ⟨Role.tool, content, [], some tool_call_id, some name⟩

/-- The language-model client (`self.model.invoke`): an opaque function from
a message sequence to the content and tool-call list of the returned
`AIMessage`. -/
def ModelClient : Type := List Message → String × List ToolCall

/-- One registered tool capability (`tool.invoke`): takes the call's
arguments and either returns a result rendered to text, or raises an
exception (modelled as `Except.error` carrying the raised value). -/
def ToolCap : Type := String → Except String String

/-- The tool registry `self.tools = {t.name: t for t in tools}`: a name to
capability dictionary; `none` models a missing key. -/
def ToolRegistry : Type := String → Option ToolCap

/-- Errors a node of the graph can raise.  `keyError n` is the Python
`KeyError` from the dict lookup `self.tools[t['name']]` on an unregistered
name; `raised e` is an exception propagated unchanged out of
`tool.invoke` (the notebook wraps tool invocation in no try/except). -/
inductive AgentError where
  | keyError (name : String)
  | raised (e : String)
deriving DecidableEq, Repr

/-- `state['messages'][-1]`.  The source indexes the last element directly;
every use happens after the `llm` node has appended a message, so the list
is never empty there and the default is never reached. -/
def lastMessage (state : List Message) : Message :=
  state.getLastD (AIMessage "" [])

/-- The message sequence `call_openai` passes to the model: the transient
working copy with the system preamble prepended when `self.system` is
non-empty (`if self.system: messages = [SystemMessage(content=self.system)] + messages`).
The prepend happens on every invocation and is never stored back into the
state. -/
def promptMessages (sys : String) (state : List Message) : List Message :=
  if sys ≠ "" then SystemMessage sys :: state else state

/-- `Agent.call_openai`: invoke the model on the (preamble-extended) message
sequence and return the node's delta `{'messages': [message]}` — one new
assistant message. -/
def call_openai (m : ModelClient) (sys : String) (state : List Message) : List Message :=
  [AIMessage (m (promptMessages sys state)).1 (m (promptMessages sys state)).2]

/-- `Agent.exists_action`: `len(state['messages'][-1].tool_calls) > 0`. -/
def exists_action (state : List Message) : Bool :=
  decide (0 < (lastMessage state).tool_calls.length)

/-- The `for t in tool_calls` body of `Agent.take_action`: resolve each call's
name in the registry (a failing dict lookup raises `KeyError`), invoke the
capability (an exception propagates raw), and accumulate one `ToolMessage`
per call, in request order, with `tool_call_id=t['id']`, `name=t['name']`. -/
def runCalls (tl : ToolRegistry) : List ToolCall → Except AgentError (List Message)
  | [] => Except.ok []
  | t :: rest =>
    match tl t.name with
    | none => Except.error (AgentError.keyError t.name)
    | some cap =>
      match cap t.args with
      | Except.error e => Except.error (AgentError.raised e)
      | Except.ok result =>
        match runCalls tl rest with
        | Except.error err => Except.error err
        | Except.ok msgs => Except.ok (ToolMessage t.id t.name result :: msgs)

/-- `Agent.take_action`: read `state['messages'][-1].tool_calls` and run
the calls, returning the node's delta `{'messages': results}`. -/
def take_action (tl : ToolRegistry) (state : List Message) : Except AgentError (List Message) :=
  runCalls tl (lastMessage state).tool_calls

/-- Graph execution outcome for one submitted turn: `finalized` carries the
checkpointed state at END; `failed` carries the raising node's error and the
last checkpointed state (the state after the `llm` node, since `action` is
the only node that raises and its delta is discarded when it does);
`outOfFuel` carries the state checkpointed so far when the supplied fuel
is exhausted (the source loop has no bound of its own). -/
inductive LoopResult where
  | finalized (state : List Message)
  | failed (e : AgentError) (state : List Message)
  | outOfFuel (state : List Message)
deriving DecidableEq, Repr

def LoopResult.state : LoopResult → List Message
  | LoopResult.finalized s => s
  | LoopResult.failed _ s => s
  | LoopResult.outOfFuel s => s

/-- The compiled graph, run from entry point `llm` on a given state:
`llm` appends its assistant message (checkpoint), the conditional edge
`exists_action` picks `action` or END, `action` appends its tool messages
(checkpoint) and loops back to `llm`.  `fuel` bounds the number of `llm`
node executions our embedding will unfold; the source has no such bound. -/
def runLoop (m : ModelClient) (tl : ToolRegistry) (sys : String) :
    Nat → List Message → LoopResult
  | 0, state => LoopResult.outOfFuel state
  | fuel + 1, state =>
    let state' := state ++ call_openai m sys state
    if exists_action state' then
      match take_action tl state' with
      | Except.error e => LoopResult.failed e state'
      | Except.ok results => runLoop m tl sys fuel (state' ++ results)
    else
      LoopResult.finalized state'

/-- The messages a loop run appends beyond its input state (the concatenated
node deltas, in production order). -/
def loopDelta (m : ModelClient) (tl : ToolRegistry) (sys : String) :
    Nat → List Message → List Message
  | 0, _ => []
  | fuel + 1, state =>
    let newMsgs := call_openai m sys state
    let state' := state ++ newMsgs
    if exists_action state' then
      match take_action tl state' with
      | Except.error _ => newMsgs
      | Except.ok results => newMsgs ++ results ++ loopDelta m tl sys fuel (state' ++ results)
    else
      newMsgs

/-- The per-thread checkpoint store (`SqliteSaver` keyed by
`thread_id`): maps each thread id to its persisted message list.  Unseen
threads load as empty. -/
def Store : Type := String → List Message

def emptyStore : Store := fun _ => []

/-- `get_history`: retrieve a thread's persisted message list. -/
def get_history (store : Store) (tid : String) : List Message :=
  store tid

/-- One call of `abot.graph.stream({"messages": [HumanMessage(content=u)]}, thread)`:
the input delta is merged into the loaded state with `operator.add` (append),
the graph runs, and the thread's entry holds the last checkpointed state
afterwards (also when a node raised or fuel ran out: checkpoints already
written stay durable).  Other threads' entries are untouched. -/
def submit (m : ModelClient) (tl : ToolRegistry) (sys : String) (fuel : Nat)
    (store : Store) (tid : String) (u : String) : Store :=
  fun t => if t = tid
    then (runLoop m tl sys fuel (store tid ++ [HumanMessage u])).state
    else store t

/-- A sequence of submitted turns on one thread, oldest first. -/
def runThreadTurns (m : ModelClient) (tl : ToolRegistry) (sys : String) (fuel : Nat)
    (turns : List String) (store : Store) (tid : String) : Store :=
  turns.foldl (fun s u => submit m tl sys fuel s tid u) store

/-- An interleaved sequence of submissions `(thread_id, user_text)` across
threads. -/
def runSubmissions (m : ModelClient) (tl : ToolRegistry) (sys : String) (fuel : Nat)
    (subs : List (String × String)) (store : Store) : Store :=
  subs.foldl (fun s p => submit m tl sys fuel s p.1 p.2) store

/-- Turn-level view of a run on a single message list: append the user
message, run the graph, keep the resulting state. -/
def runTurns (m : ModelClient) (tl : ToolRegistry) (sys : String) (fuel : Nat) :
    List String → List Message → List Message
  | [], st => st
  | u :: us, st =>
    runTurns m tl sys fuel us (runLoop m tl sys fuel (st ++ [HumanMessage u])).state

/-- The per-turn history segment: the submitted user message followed by the
messages the loop produced for that turn. -/
def turnDelta (m : ModelClient) (tl : ToolRegistry) (sys : String) (fuel : Nat)
    (st : List Message) (u : String) : List Message :=
  HumanMessage u :: loopDelta m tl sys fuel (st ++ [HumanMessage u])

/-- The history segments of a sequence of turns, in submission order. -/
def turnSegs (m : ModelClient) (tl : ToolRegistry) (sys : String) (fuel : Nat) :
    List String → List Message → List (List Message)
  | [], _ => []
  | u :: us, st =>
    turnDelta m tl sys fuel st u ::
      turnSegs m tl sys fuel us (st ++ turnDelta m tl sys fuel st u)

/-- The token-stream filter of the `astream_events` cell: for each
`on_chat_model_stream` event's chunk content, emit it only when non-empty
(`if content: print(content, ...)`). -/
def streamOutput (chunks : List String) : List String :=
  chunks.filter (fun c => c ≠ "")

end LlmNotes

/-- The `flatten` helper of the tagging-and-extraction notebook:
`flat_list = []`, then `flat_list += row` for each row. -/
def flatten {α : Type} (matrix : List (List α)) : List α :=
  matrix.foldl (fun flat_list row => flat_list ++ row) []

namespace LlmNotes

theorem lastMessage_concat (st : List Message) (msg : Message) :
    lastMessage (st ++ [msg]) = msg :=
  List.getLastD_concat _ _ _

theorem runCalls_ok_map (tl : ToolRegistry) :
    ∀ (calls : List ToolCall) (msgs : List Message),
      runCalls tl calls = Except.ok msgs →
      msgs.map (fun msg => (msg.role, msg.tool_call_id, msg.name))
        = calls.map (fun c => (Role.tool, some c.id, some c.name))
  | [], msgs, h => by
    simp only [runCalls, Except.ok.injEq] at h
    subst h
    rfl
  | t :: rest, msgs, h => by
    cases htl : tl t.name with
    | none =>
      simp only [runCalls, htl] at h
      exact Except.noConfusion h
    | some cap =>
      cases hcap : cap t.args with
      | error e =>
        simp only [runCalls, htl, hcap] at h
        exact Except.noConfusion h
      | ok result =>
        cases hrec : runCalls tl rest with
        | error err =>
          simp only [runCalls, htl, hcap, hrec] at h
          exact Except.noConfusion h
        | ok msgs2 =>
          simp only [runCalls, htl, hcap, hrec, Except.ok.injEq] at h
          subst h
          simp only [List.map_cons, ToolMessage]
          rw [runCalls_ok_map tl rest msgs2 hrec]

theorem runLoop_state_eq (m : ModelClient) (tl : ToolRegistry) (sys : String) :
    ∀ (fuel : Nat) (st : List Message),
      (runLoop m tl sys fuel st).state = st ++ loopDelta m tl sys fuel st
  | 0, st => by
    simp [runLoop, loopDelta, LoopResult.state]
  | fuel + 1, st => by
    simp only [runLoop, loopDelta]
    cases h : exists_action (st ++ call_openai m sys st) with
    | false =>
      simp only [h, Bool.false_eq_true, if_false, LoopResult.state]
    | true =>
      simp only [h, if_true]
      cases h2 : take_action tl (st ++ call_openai m sys st) with
      | error e =>
        simp only [LoopResult.state]
      | ok results =>
        rw [runLoop_state_eq m tl sys fuel (st ++ call_openai m sys st ++ results)]
        simp [List.append_assoc]

end LlmNotes

namespace LlmNotes

theorem runCalls_ok_length (tl : ToolRegistry) (calls : List ToolCall)
    (msgs : List Message) (h : runCalls tl calls = Except.ok msgs) :
    msgs.length = calls.length := by
  have hmap := runCalls_ok_map tl calls msgs h
  have hlen := congrArg List.length hmap
  simpa using hlen

theorem runLoop_state_length (m : ModelClient) (tl : ToolRegistry) (sys : String)
    (fuel : Nat) (st : List Message) :
    st.length ≤ (runLoop m tl sys fuel st).state.length := by
  rw [runLoop_state_eq]
  simp

/-- Claim C2: after every decision step (the `llm` node appending its
assistant message), the loop finalizes exactly when that latest message's
tool-calls list is empty; when it is non-empty the loop instead enters tool
execution, whose outcome (a failure or a further cycle) is never the
immediate finalization of the post-decision state. -/
theorem c2_tool_branch_iff (m : ModelClient) (tl : ToolRegistry) (sys : String)
    (fuel : Nat) (st : List Message) :
    runLoop m tl sys (fuel + 1) st
        = LoopResult.finalized (st ++ call_openai m sys st)
      ↔ (lastMessage (st ++ call_openai m sys st)).tool_calls = [] := by
  have hlast : lastMessage (st ++ call_openai m sys st)
      = AIMessage (m (promptMessages sys st)).1 (m (promptMessages sys st)).2 :=
    lastMessage_concat st _
  constructor
  · intro hfin
    by_contra hne
    have hpos : 0 < (lastMessage (st ++ call_openai m sys st)).tool_calls.length :=
      List.length_pos.mpr hne
    have hex : exists_action (st ++ call_openai m sys st) = true := by
      simpa [exists_action] using hpos
    simp only [runLoop, hex, if_true] at hfin
    cases ht : take_action tl (st ++ call_openai m sys st) with
    | error e =>
      rw [ht] at hfin
      exact LoopResult.noConfusion hfin
    | ok results =>
      rw [ht] at hfin
      have hresl : results.length = (lastMessage (st ++ call_openai m sys st)).tool_calls.length :=
        runCalls_ok_length tl _ results ht
      have hst := congrArg LoopResult.state hfin
      rw [runLoop_state_eq] at hst
      have hlen := congrArg List.length hst
      simp only [List.length_append, LoopResult.state] at hlen
      omega
  · intro hnil
    have hex : exists_action (st ++ call_openai m sys st) = false := by
      simp [exists_action, hnil]
    simp only [runLoop, hex, Bool.false_eq_true, if_false]

/-- A model client that requests a tool call on every decision. -/
def relentlessModel : ModelClient :=
  fun _ => ("", [⟨"c1", "search", "weather sf"⟩])

/-- A registry resolving every name to a capability that succeeds. -/
def okRegistry : ToolRegistry :=
  fun _ => some (fun _ => Except.ok "result")

theorem relentless_runs_forever :
    ∀ (fuel : Nat) (st : List Message),
      ∃ s, runLoop relentlessModel okRegistry "" fuel st = LoopResult.outOfFuel s
  | 0, st => ⟨st, rfl⟩
  | fuel + 1, st => by
    have hcall : call_openai relentlessModel "" st
        = [AIMessage "" [⟨"c1", "search", "weather sf"⟩]] := rfl
    have hex : exists_action (st ++ call_openai relentlessModel "" st) = true := by
      rw [exists_action, hcall, lastMessage_concat]
      rfl
    have hta : take_action okRegistry (st ++ call_openai relentlessModel "" st)
        = Except.ok [ToolMessage "c1" "search" "result"] := by
      rw [take_action, hcall, lastMessage_concat]
      rfl
    obtain ⟨s, hs⟩ := relentless_runs_forever fuel
      (st ++ call_openai relentlessModel "" st ++ [ToolMessage "c1" "search" "result"])
    refine ⟨s, ?_⟩
    simp only [runLoop, hex, if_true, hta]
    exact hs

/-- Claim C9: the loop enforces no maximum iteration bound: under a model
client that answers every decision with a non-empty tool-call request (and
tools that always succeed), a single submitted turn keeps cycling
decide-then-execute for any amount of fuel and never reaches a `finalized`
result — there is no iteration guard in the loop. -/
theorem c9_no_iteration_bound :
    ∀ (fuel : Nat) (st : List Message),
      ∃ s, runLoop relentlessModel okRegistry "" fuel st = LoopResult.outOfFuel s :=
  relentless_runs_forever

end LlmNotes

theorem foldl_append_eq_join {α : Type} :
    ∀ (l : List (List α)) (acc : List α),
      l.foldl (fun flat_list row => flat_list ++ row) acc = acc ++ l.flatten
  | [], acc => by simp
  | x :: l, acc => by
    simp [foldl_append_eq_join l (acc ++ x)]

theorem flatten_eq_join {α : Type} (xs : List (List α)) : flatten xs = xs.flatten := by
  rw [flatten, foldl_append_eq_join]
  rfl

/-- Claim C10: `flatten` returns the left-to-right concatenation of its rows
(`flatten [[1,2],[3,4]] = [1,2,3,4]`, `flatten [] = []`) and is the list-join
homomorphism: `flatten (xs ++ ys) = flatten xs ++ flatten ys` and
`flatten [x] = x`. -/
theorem c10_flatten_spec :
    flatten [[1, 2], [3, 4]] = [1, 2, 3, 4]
    ∧ flatten ([] : List (List Nat)) = []
    ∧ ∀ (α : Type) (xs ys : List (List α)) (x : List α),
        flatten xs = xs.flatten
        ∧ flatten (xs ++ ys) = flatten xs ++ flatten ys
        ∧ flatten [x] = x := by
  refine ⟨by decide, rfl, fun α xs ys x => ⟨flatten_eq_join xs, ?_, ?_⟩⟩
  · rw [flatten_eq_join, flatten_eq_join, flatten_eq_join, List.flatten_append]
  · rw [flatten_eq_join]
    simp

namespace LlmNotes

theorem runTurns_eq_segs (m : ModelClient) (tl : ToolRegistry) (sys : String) (fuel : Nat) :
    ∀ (turns : List String) (st : List Message),
      runTurns m tl sys fuel turns st = st ++ (turnSegs m tl sys fuel turns st).flatten
  | [], st => by simp [runTurns, turnSegs]
  | u :: us, st => by
    rw [runTurns, runLoop_state_eq]
    rw [runTurns_eq_segs m tl sys fuel us (st ++ [HumanMessage u] ++ loopDelta m tl sys fuel (st ++ [HumanMessage u]))]
    have hst : st ++ [HumanMessage u] ++ loopDelta m tl sys fuel (st ++ [HumanMessage u])
        = st ++ turnDelta m tl sys fuel st u := by
      simp [turnDelta]
    rw [hst]
    simp [turnSegs]

theorem turnSegs_heads (m : ModelClient) (tl : ToolRegistry) (sys : String) (fuel : Nat) :
    ∀ (turns : List String) (st : List Message),
      (turnSegs m tl sys fuel turns st).map List.head?
        = turns.map (fun u => some (HumanMessage u))
  | [], _ => rfl
  | u :: us, st => by
    simp only [turnSegs, List.map_cons, turnDelta, List.head?_cons]
    rw [turnSegs_heads m tl sys fuel us]

theorem runCalls_ok_roles (tl : ToolRegistry) (calls : List ToolCall)
    (msgs : List Message) (h : runCalls tl calls = Except.ok msgs) :
    ∀ msg ∈ msgs, msg.role = Role.tool := by
  intro msg hm
  have hmap := runCalls_ok_map tl calls msgs h
  have hmem : (msg.role, msg.tool_call_id, msg.name)
      ∈ calls.map (fun c => (Role.tool, some c.id, some c.name)) := by
    rw [← hmap]
    exact List.mem_map_of_mem _ hm
  obtain ⟨c, _, hc⟩ := List.mem_map.mp hmem
  exact (congrArg Prod.fst hc).symm

theorem loopDelta_roles (m : ModelClient) (tl : ToolRegistry) (sys : String) :
    ∀ (fuel : Nat) (st : List Message),
      ∀ msg ∈ loopDelta m tl sys fuel st, msg.role = Role.assistant ∨ msg.role = Role.tool
  | 0, st => by simp [loopDelta]
  | fuel + 1, st => by
    intro msg hm
    simp only [loopDelta] at hm
    cases h : exists_action (st ++ call_openai m sys st) with
    | false =>
      rw [h] at hm
      simp only [Bool.false_eq_true, if_false, call_openai, List.mem_singleton] at hm
      subst hm
      exact Or.inl rfl
    | true =>
      simp only [h, if_true] at hm
      cases ht : take_action tl (st ++ call_openai m sys st) with
      | error e =>
        rw [ht] at hm
        simp only [call_openai, List.mem_singleton] at hm
        subst hm
        exact Or.inl rfl
      | ok results =>
        rw [ht] at hm
        rcases List.mem_append.mp hm with hm1 | hm2
        · rcases List.mem_append.mp hm1 with hm3 | hm4
          · simp only [call_openai, List.mem_singleton] at hm3
            subst hm3
            exact Or.inl rfl
          · exact Or.inr (runCalls_ok_roles tl _ results ht msg hm4)
        · exact loopDelta_roles m tl sys fuel _ msg hm2

theorem turnSegs_mem (m : ModelClient) (tl : ToolRegistry) (sys : String) (fuel : Nat) :
    ∀ (turns : List String) (st : List Message) (seg : List Message),
      seg ∈ turnSegs m tl sys fuel turns st →
      ∃ u st2, seg = turnDelta m tl sys fuel st2 u
  | [], _, seg, h => absurd h (List.not_mem_nil seg)
  | u :: us, st, seg, h => by
    rcases List.mem_cons.mp h with h1 | h2
    · exact ⟨u, st, h1⟩
    · exact turnSegs_mem m tl sys fuel us _ seg h2

theorem turnSegs_roles (m : ModelClient) (tl : ToolRegistry) (sys : String) (fuel : Nat)
    (turns : List String) (st : List Message) :
    (turnSegs m tl sys fuel turns st).all
      (fun seg => seg.tail.all
        (fun msg => msg.role == Role.assistant || msg.role == Role.tool)) = true := by
  rw [List.all_eq_true]
  intro seg hseg
  obtain ⟨u, st2, rfl⟩ := turnSegs_mem m tl sys fuel turns st seg hseg
  rw [turnDelta, List.tail_cons, List.all_eq_true]
  intro msg hm
  rcases loopDelta_roles m tl sys fuel _ msg hm with h | h <;> simp [h]

theorem runThreadTurns_get (m : ModelClient) (tl : ToolRegistry) (sys : String) (fuel : Nat) :
    ∀ (turns : List String) (store : Store) (tid : String),
      get_history (runThreadTurns m tl sys fuel turns store tid) tid
        = runTurns m tl sys fuel turns (get_history store tid)
  | [], _, _ => rfl
  | u :: us, store, tid => by
    show get_history
        (runThreadTurns m tl sys fuel us (submit m tl sys fuel store tid u) tid) tid
      = runTurns m tl sys fuel (u :: us) (get_history store tid)
    rw [runThreadTurns_get m tl sys fuel us (submit m tl sys fuel store tid u) tid]
    rw [runTurns]
    congr 1
    show (if tid = tid then (runLoop m tl sys fuel (store tid ++ [HumanMessage u])).state
          else store tid)
      = (runLoop m tl sys fuel (store tid ++ [HumanMessage u])).state
    rw [if_pos rfl]

/-- Claim C1: on one thread, the history retrieved after `N` submitted turns
is the initial history followed by, in submission order, one segment per
turn; each segment is that turn's user message (its head) followed by the
assistant and tool messages the loop produced for that turn.  Every
operation only ever appends: the decomposition shows each turn extends the
previous history by its own segment, with nothing removed or reordered. -/
theorem c1_history_append_only (m : ModelClient) (tl : ToolRegistry) (sys : String)
    (fuel : Nat) (turns : List String) (store : Store) (tid : String) :
    get_history (runThreadTurns m tl sys fuel turns store tid) tid
      = get_history store tid
        ++ (turnSegs m tl sys fuel turns (get_history store tid)).flatten
    ∧ (turnSegs m tl sys fuel turns (get_history store tid)).map List.head?
      = turns.map (fun u => some (HumanMessage u))
    ∧ (turnSegs m tl sys fuel turns (get_history store tid)).all
        (fun seg => seg.tail.all
          (fun msg => msg.role == Role.assistant || msg.role == Role.tool)) = true := by
  refine ⟨?_, turnSegs_heads m tl sys fuel turns _, turnSegs_roles m tl sys fuel turns _⟩
  rw [runThreadTurns_get, runTurns_eq_segs]

theorem runSubmissions_filter (m : ModelClient) (tl : ToolRegistry) (sys : String) (fuel : Nat) :
    ∀ (subs : List (String × String)) (store : Store) (tid : String),
      get_history (runSubmissions m tl sys fuel subs store) tid
        = runTurns m tl sys fuel
            ((subs.filter (fun p => p.1 == tid)).map Prod.snd) (get_history store tid)
  | [], _, _ => rfl
  | (t, u) :: rest, store, tid => by
    show get_history (runSubmissions m tl sys fuel rest (submit m tl sys fuel store t u)) tid
      = runTurns m tl sys fuel
          ((((t, u) :: rest).filter (fun p => p.1 == tid)).map Prod.snd)
          (get_history store tid)
    by_cases h : t = tid
    · subst h
      rw [runSubmissions_filter m tl sys fuel rest (submit m tl sys fuel store t u) t]
      have hget : get_history (submit m tl sys fuel store t u) t
          = (runLoop m tl sys fuel (store t ++ [HumanMessage u])).state := by
        show (if t = t then _ else _) = _
        rw [if_pos rfl]
      rw [hget]
      simp only [List.filter_cons, beq_self_eq_true, if_true, List.map_cons]
      rw [runTurns]
      rfl
    · rw [runSubmissions_filter m tl sys fuel rest (submit m tl sys fuel store t u) tid]
      have hget : get_history (submit m tl sys fuel store t u) tid = get_history store tid := by
        show (if tid = t then _ else _) = _
        rw [if_neg (fun hh => h hh.symm)]
        rfl
      rw [hget]
      have hfilter : ((t, u) :: rest).filter (fun p => p.1 == tid)
          = rest.filter (fun p => p.1 == tid) := by
        simp [List.filter_cons, h]
      rw [hfilter]

end LlmNotes

namespace LlmNotes

theorem stringFoldlJoin :
    ∀ (l : List String) (acc : String), l.foldl (· ++ ·) acc = acc ++ String.join l
  | [], acc => by
    show acc = acc ++ String.join []
    rw [show String.join [] = "" from rfl, String.append_empty]
  | a :: l, acc => by
    show l.foldl (· ++ ·) (acc ++ a) = acc ++ String.join (a :: l)
    rw [stringFoldlJoin l (acc ++ a),
        show String.join (a :: l) = l.foldl (· ++ ·) ("" ++ a) from rfl,
        stringFoldlJoin l ("" ++ a), String.empty_append, String.append_assoc]

theorem joinFilterNonempty :
    ∀ l : List String, String.join (l.filter (fun c => c ≠ "")) = String.join l
  | [] => rfl
  | a :: l => by
    by_cases h : a = ""
    · subst h
      show String.join (List.filter _ l) = String.join ("" :: l)
      rw [joinFilterNonempty l,
          show String.join ("" :: l) = l.foldl (· ++ ·) ("" ++ "") from rfl]
      rw [show ("" ++ "" : String) = "" from rfl]
      rfl
    · have hcons : (a :: l).filter (fun c => c ≠ "") = a :: l.filter (fun c => c ≠ "") := by
        simp [List.filter, h]
      rw [hcons]
      show (l.filter _).foldl (· ++ ·) ("" ++ a) = String.join (a :: l)
      rw [stringFoldlJoin, joinFilterNonempty l]
      show ("" ++ a) ++ String.join l = l.foldl (· ++ ·) ("" ++ a)
      rw [stringFoldlJoin]

theorem filter_idem_submissions (subs : List (String × String)) (tid : String) :
    (subs.filter (fun p => p.1 == tid)).filter (fun p => p.1 == tid)
      = subs.filter (fun p => p.1 == tid) := by
  simp [List.filter_filter]

/-- Claim C6: full cross-thread isolation.  A thread's retrieved history
after any interleaved sequence of submissions is generated exclusively from
that thread's own submissions, in their order; hence submissions to other
threads have no effect on it, and equivalently deleting every other
thread's submissions leaves the retrieved history unchanged. -/
theorem c6_thread_isolation (m : ModelClient) (tl : ToolRegistry) (sys : String)
    (fuel : Nat) (subs : List (String × String)) (store : Store) (tid : String) :
    get_history (runSubmissions m tl sys fuel subs store) tid
      = runTurns m tl sys fuel
          ((subs.filter (fun p => p.1 == tid)).map Prod.snd) (get_history store tid)
    ∧ get_history (runSubmissions m tl sys fuel subs store) tid
      = get_history
          (runSubmissions m tl sys fuel (subs.filter (fun p => p.1 == tid)) store) tid := by
  refine ⟨runSubmissions_filter m tl sys fuel subs store tid, ?_⟩
  rw [runSubmissions_filter m tl sys fuel subs store tid,
      runSubmissions_filter m tl sys fuel (subs.filter (fun p => p.1 == tid)) store tid,
      filter_idem_submissions]

/-- Claim C3: whenever tool execution succeeds for an assistant message
carrying a tool-calls list, it appends exactly one tool message per
requested call, in request order, each with `tool_call_id` equal to its
call's id (and `name` equal to its call's tool name); the loop then appends
exactly these messages to the state, in this order. -/
theorem c3_tool_messages_match (m : ModelClient) (tl : ToolRegistry) (sys : String)
    (fuel : Nat) (st : List Message) (msgs : List Message)
    (hex : exists_action (st ++ call_openai m sys st) = true)
    (hok : take_action tl (st ++ call_openai m sys st) = Except.ok msgs) :
    msgs.map (fun msg => (msg.role, msg.tool_call_id, msg.name))
      = (lastMessage (st ++ call_openai m sys st)).tool_calls.map
          (fun c => (Role.tool, some c.id, some c.name))
    ∧ runLoop m tl sys (fuel + 1) st
      = runLoop m tl sys fuel (st ++ call_openai m sys st ++ msgs) := by
  refine ⟨runCalls_ok_map tl _ msgs hok, ?_⟩
  simp only [runLoop, hex, if_true, hok]

/-- Claim C7: the token-level stream (the `on_chat_model_stream` handler,
which emits a chunk's content only when it is non-empty) emits only
non-empty fragments, and — given the streaming client contract that the
final decision's text equals the concatenation of all streamed chunks —
the concatenation of the emitted fragments reconstructs exactly the final
content.  Suppressing the empty fragments loses nothing. -/
theorem c7_token_stream (chunks : List String) (final : String)
    (hfinal : final = String.join chunks) :
    (∀ s ∈ streamOutput chunks, s ≠ "")
    ∧ String.join (streamOutput chunks) = final := by
  constructor
  · intro s hs
    have := List.of_mem_filter hs
    simpa using this
  · rw [hfinal, streamOutput]
    exact joinFilterNonempty chunks

end LlmNotes

namespace LlmNotes

/-- Witness for C3 at a concrete run: one requested call, one tool message
with the matching id, name and role. -/
theorem c3_tool_messages_match_witness :
    ([ToolMessage "c1" "search" "result"]).map
        (fun msg => (msg.role, msg.tool_call_id, msg.name))
      = (lastMessage ([HumanMessage "hi"]
            ++ call_openai relentlessModel "" [HumanMessage "hi"])).tool_calls.map
          (fun c => (Role.tool, some c.id, some c.name)) :=
  (c3_tool_messages_match relentlessModel okRegistry "" 0 [HumanMessage "hi"]
    [ToolMessage "c1" "search" "result"] rfl rfl).1

/-- Witness for C7 at a concrete chunk stream containing an empty fragment. -/
theorem c7_token_stream_witness :
    String.join (streamOutput ["72F", "", " sunny"]) = "72F sunny" :=
  (c7_token_stream ["72F", "", " sunny"] "72F sunny" rfl).2

/-- A registry whose capabilities always raise. -/
def failingRegistry : ToolRegistry :=
  fun _ => some (fun _ => Except.error "ValueError: boom")

/-- A registry with no tools registered. -/
def emptyRegistry : ToolRegistry :=
  fun _ => none

/-- A model client that always answers with final text and no tool calls. -/
def finalModel : ModelClient :=
  fun _ => ("ok", [])

/-- Counterexample to C4 as stated: when the tool capability raises, the
exception is NOT caught and folded into a tool message — the turn fails
with the raw raised value (the embedding's `AgentError.raised` carries the
original exception only, with no tool name or call id attached), and the
persisted state contains no tool message at all. -/
theorem c4_counterexample :
    runLoop relentlessModel failingRegistry "" 2 [HumanMessage "hi"]
      = LoopResult.failed (AgentError.raised "ValueError: boom")
          [HumanMessage "hi", AIMessage "" [⟨"c1", "search", "weather sf"⟩]]
    ∧ (runLoop relentlessModel failingRegistry "" 2 [HumanMessage "hi"]).state.countP
        (fun msg => decide (msg.role = Role.tool)) = 0 :=
  ⟨rfl, rfl⟩

/-- Claim C4 (amended): when a requested tool's capability raises, the
`take_action` node propagates the exception raw (the notebook has no
try/except around `tool.invoke`); the turn aborts, no tool message is
appended, and the persisted history is the pre-turn state extended by the
decision's assistant message only. -/
theorem c4_amended (m : ModelClient) (tl : ToolRegistry) (sys : String) (fuel : Nat)
    (st : List Message) (c cid nm ar e : String) (rest : List ToolCall) (cap : ToolCap)
    (hm : m (promptMessages sys st) = (c, ⟨cid, nm, ar⟩ :: rest))
    (htl : tl nm = some cap) (hcap : cap ar = Except.error e) :
    runLoop m tl sys (fuel + 1) st
      = LoopResult.failed (AgentError.raised e)
          (st ++ [AIMessage c (⟨cid, nm, ar⟩ :: rest)]) := by
  have hcall : call_openai m sys st = [AIMessage c (⟨cid, nm, ar⟩ :: rest)] := by
    rw [call_openai, hm]
  have hlast : lastMessage (st ++ call_openai m sys st)
      = AIMessage c (⟨cid, nm, ar⟩ :: rest) := by
    rw [hcall]
    exact lastMessage_concat st _
  have hex : exists_action (st ++ call_openai m sys st) = true := by
    simp [exists_action, hlast, AIMessage]
  have hta : take_action tl (st ++ call_openai m sys st)
      = Except.error (AgentError.raised e) := by
    rw [take_action, hlast]
    show runCalls tl (⟨cid, nm, ar⟩ :: rest) = _
    simp only [runCalls, htl, hcap]
  rw [hcall] at hex hta
  simp only [runLoop, hcall, hex, if_true, hta]

/-- Witness for the amended C4 at a concrete raising tool. -/
theorem c4_amended_witness :
    runLoop relentlessModel failingRegistry "" 3 [HumanMessage "hi"]
      = LoopResult.failed (AgentError.raised "ValueError: boom")
          ([HumanMessage "hi"] ++ [AIMessage "" [⟨"c1", "search", "weather sf"⟩]]) :=
  c4_amended relentlessModel failingRegistry "" 2 [HumanMessage "hi"]
    "" "c1" "search" "weather sf" "ValueError: boom" []
    (fun _ => Except.error "ValueError: boom") rfl rfl rfl

/-- Counterexample to C5 as stated: submitting a turn whose decision names
an unregistered tool does NOT leave the persisted history unchanged — the
user message and the assistant message carrying the unresolved tool-call
batch were already checkpointed by the decision step, and `get_history`
returns them after the failure. -/
theorem c5_counterexample :
    get_history
        (submit relentlessModel emptyRegistry "" 2 emptyStore "t1"
          "What is the weather in sf?") "t1"
      = [HumanMessage "What is the weather in sf?",
         AIMessage "" [⟨"c1", "search", "weather sf"⟩]]
    ∧ get_history emptyStore "t1" = []
    ∧ get_history
        (submit relentlessModel emptyRegistry "" 2 emptyStore "t1"
          "What is the weather in sf?") "t1"
      ≠ get_history emptyStore "t1" :=
  ⟨rfl, rfl, by decide⟩

/-- Claim C5 (amended): on a decision requesting an unregistered tool name,
the tool-execution node fails with the dictionary lookup error (`KeyError`)
for that name, appends no tool message for the batch, and the persisted
history equals the pre-decision state extended by exactly the decision's
assistant message (a checkpointed partial turn — not the state from before
the call). -/
theorem c5_amended (m : ModelClient) (tl : ToolRegistry) (sys : String) (fuel : Nat)
    (st : List Message) (c cid nm ar : String) (rest : List ToolCall)
    (hm : m (promptMessages sys st) = (c, ⟨cid, nm, ar⟩ :: rest))
    (htl : tl nm = none) :
    runLoop m tl sys (fuel + 1) st
      = LoopResult.failed (AgentError.keyError nm)
          (st ++ [AIMessage c (⟨cid, nm, ar⟩ :: rest)]) := by
  have hcall : call_openai m sys st = [AIMessage c (⟨cid, nm, ar⟩ :: rest)] := by
    rw [call_openai, hm]
  have hlast : lastMessage (st ++ call_openai m sys st)
      = AIMessage c (⟨cid, nm, ar⟩ :: rest) := by
    rw [hcall]
    exact lastMessage_concat st _
  have hex : exists_action (st ++ call_openai m sys st) = true := by
    simp [exists_action, hlast, AIMessage]
  have hta : take_action tl (st ++ call_openai m sys st)
      = Except.error (AgentError.keyError nm) := by
    rw [take_action, hlast]
    show runCalls tl (⟨cid, nm, ar⟩ :: rest) = _
    simp only [runCalls, htl]
  rw [hcall] at hex hta
  simp only [runLoop, hcall, hex, if_true, hta]

/-- Witness for the amended C5 at a concrete unknown-tool run. -/
theorem c5_amended_witness :
    runLoop relentlessModel emptyRegistry "" 3 [HumanMessage "hi"]
      = LoopResult.failed (AgentError.keyError "search")
          ([HumanMessage "hi"] ++ [AIMessage "" [⟨"c1", "search", "weather sf"⟩]]) :=
  c5_amended relentlessModel emptyRegistry "" 2 [HumanMessage "hi"]
    "" "c1" "search" "weather sf" [] rfl rfl

/-- Counterexample to C8 as stated: with a non-empty system preamble
configured, the history persisted after a submitted turn starts with the
user message and contains no system-role message at all — the preamble was
never appended to the ConversationState. -/
theorem c8_counterexample :
    get_history
        (submit finalModel okRegistry "You are a smart research assistant." 2
          emptyStore "1" "hi") "1"
      = [HumanMessage "hi", AIMessage "ok" []]
    ∧ (get_history
        (submit finalModel okRegistry "You are a smart research assistant." 2
          emptyStore "1" "hi") "1").countP
        (fun msg => decide (msg.role = Role.system)) = 0 :=
  ⟨rfl, rfl⟩

theorem runTurns_no_system (m : ModelClient) (tl : ToolRegistry) (sys : String) (fuel : Nat) :
    ∀ (turns : List String) (st : List Message),
      (∀ msg ∈ st, msg.role ≠ Role.system) →
      ∀ msg ∈ runTurns m tl sys fuel turns st, msg.role ≠ Role.system
  | [], _, hst => hst
  | u :: us, st, hst => by
    apply runTurns_no_system m tl sys fuel us
    intro msg hm
    rw [runLoop_state_eq] at hm
    rcases List.mem_append.mp hm with h1 | h2
    · rcases List.mem_append.mp h1 with h3 | h4
      · exact hst msg h3
      · simp only [List.mem_singleton] at h4
        subst h4
        intro hc
        exact Role.noConfusion hc
    · rcases loopDelta_roles m tl sys fuel _ msg h2 with h | h <;>
        (rw [h]; intro hc; exact Role.noConfusion hc)

/-- Claim C8 (amended): the system preamble is never stored into the
ConversationState; instead `call_openai` prepends it transiently to the
working message sequence at every model invocation.  For any state free of
system-role messages the sequence passed to the model carries the preamble
exactly once, at position 0; and the persisted state after any sequence of
turns contains no system-role message whatsoever (so duplicates can never
accumulate). -/
theorem c8_amended (m : ModelClient) (tl : ToolRegistry) (fuel : Nat)
    (sys : String) (st : List Message)
    (hsys : sys ≠ "") (hst : ∀ msg ∈ st, msg.role ≠ Role.system) :
    promptMessages sys st = SystemMessage sys :: st
    ∧ (promptMessages sys st).countP
        (fun msg => decide (msg.role = Role.system)) = 1
    ∧ ∀ (turns : List String),
        (runTurns m tl sys fuel turns st).countP
          (fun msg => decide (msg.role = Role.system)) = 0 := by
  have hprompt : promptMessages sys st = SystemMessage sys :: st := by
    rw [promptMessages, if_pos hsys]
  have hzero : st.countP (fun msg => decide (msg.role = Role.system)) = 0 := by
    rw [List.countP_eq_zero]
    intro msg hmem
    simpa using hst msg hmem
  refine ⟨hprompt, ?_, ?_⟩
  · rw [hprompt, List.countP_cons]
    simp [SystemMessage, hzero]
  · intro turns
    rw [List.countP_eq_zero]
    intro msg hmem
    simpa using runTurns_no_system m tl sys fuel turns st hst msg hmem

/-- Witness for the amended C8 at a concrete preamble and state. -/
theorem c8_amended_witness :
    promptMessages "You are a smart research assistant." [HumanMessage "hi"]
      = SystemMessage "You are a smart research assistant." :: [HumanMessage "hi"] :=
  (c8_amended finalModel okRegistry 1 "You are a smart research assistant."
    [HumanMessage "hi"] (by decide) (by decide)).1

end LlmNotes
